import Mathlib

/-!
Shallow embedding of the loop-closure pipeline of `libhaloc` (`src/lc.cpp`):
the class `haloc::LoopClosure` with its members `setNode`, `getLoopClosure`
and `compute`, together with the per-step driving protocol of the example
program (`examples/mono.cpp`): `setNode` followed by `getLoopClosure` for
each observation of a sequence.

External collaborators (OpenCV descriptor matching, fundamental-matrix and
PnP RANSAC estimators, and the hash engine of `hash.cpp`) are modelled as
deterministic oracle functions of the descriptor tokens involved, collected
in the structure `Env`.  Descriptor sets are abstract `Int` tokens: the
orchestrator code never inspects them, it only hands them to the
collaborators.  The observation store (YAML files `<index>.yml` in the
working directory) is modelled as a partial map from the integer built into
the file name to the stored record.
-/

namespace haloc

/-- A rigid transform (`tf::Transform`), abstracted: either the identity
(`trans.setIdentity()`) or an opaque pose token standing for the output of
`Utils::buildTransformation(rvec, tvec)` in the stereo branch. -/
inductive Transform where
  | identity : Transform
  | pose : Int → Transform
deriving DecidableEq, Repr

/-- The fields of `LoopClosure::Params` that the code embedded here reads.
The remaining fields (`work_dir`, `desc_type`, thresholds, `num_proj`) are
consumed only by the external collaborators and are absorbed into the
oracles of `Env`. -/
structure Params where
  min_neighbour : Nat
  n_candidates : Nat
  min_matches : Nat
  min_inliers : Nat
  validate : Bool
deriving Repr

/-- One record of the observation store: the fields written by `setNode`
(`name`, `desc`, `threed`; the keypoint list is only ever passed on to the
external estimators, so it is absorbed into the oracles). -/
structure Record where
  name : String
  desc : Int
  threed : List (Int × Int × Int)
deriving Repr

/-- The `haloc::Image` member `img_`: the descriptors of the most recently
ingested observation, as an abstract token. -/
structure Image where
  desc : Int
deriving Repr

/-- One observation handed to `setNode`: its human-readable name, its
descriptor-set token and its 3-D point list (empty for the mono overload). -/
structure Obs where
  name : String
  desc : Int
  threed : List (Int × Int × Int)
deriving Repr

/-- Deterministic oracles for the external collaborators, fixed for a
session (the spec requires determinism of the hash and idempotence of the
estimators under fixed parameters and data):
* `getHash` — `hash_.getHash` on a descriptor token;
* `hmatch` — `hash_.match` on two hash values, the dissimilarity score;
* `descMatches` — size of `Utils::crossCheckThresholdMatching` between a
  reference descriptor token and a stored descriptor token;
* `fundOk` — whether the fundamental matrix found by `findFundamentalMat`
  passes the `f_sum < 1e-3` degeneracy test (`true` = passes);
* `monoInliers` — `cv::sum(status)` of the RANSAC inlier mask;
* `pnpInliers` — size of the `solvePnPRansac` inlier set;
* `pnpPose` — pose token for `Utils::buildTransformation(rvec, tvec)`. -/
structure Env where
  getHash : Int → Int
  hmatch : Int → Int → Int
  descMatches : Int → Int → Nat
  fundOk : Int → Int → Bool
  monoInliers : Int → Int → Nat
  pnpInliers : Int → Int → Nat
  pnpPose : Int → Int → Int

/-- The observation store: the YAML file `<i>.yml` of the working
directory, keyed by the integer `i` printed into the file name. -/
def Store : Type := Int → Option Record

/-- Result of one call to `LoopClosure::compute`: the return value together
with the final values of the reference parameters `lc_name`, `matches`,
`inliers` and `trans`. -/
structure ComputeOut where
  valid : Bool
  lcName : String
  numMatches : Nat
  inliers : Nat
  trans : Transform
deriving Repr

/-- `LoopClosure::compute` (`lc.cpp:264-351`).  `lcName` and `trans` enter
with the caller's current values because they are reference parameters:
`lc_name` is overwritten as soon as the record is read (even if the pair is
later rejected), while `trans` is overwritten only on stereo success.
`matches` and `inliers` are zeroed on entry, so their incoming values are
irrelevant and omitted. -/
def compute (P : Params) (E : Env) (store : Store) (refImage : Image)
    (curIdx : Int) (lcName : String) (trans : Transform) : ComputeOut :=
  -- Sanity check: if ( !fs::exists(cur_filename) ) return false;
  match store curIdx with
  | none => { valid := false, lcName := lcName, numMatches := 0, inliers := 0, trans := trans }
  | some r =>
    -- fs["name"] >> lc_name; fs["desc"] >> cur_desc; fs["threed"] >> points_3d;
    let lcName := r.name
    let numMatches := E.descMatches refImage.desc r.desc
    if numMatches < P.min_matches then
      { valid := false, lcName := lcName, numMatches := numMatches, inliers := 0, trans := trans }
    else if r.threed.length = 0 then
      -- Mono: fundamental matrix + inlier count
      if E.fundOk refImage.desc r.desc = false then
        { valid := false, lcName := lcName, numMatches := numMatches, inliers := 0, trans := trans }
      else
        let inliers := E.monoInliers refImage.desc r.desc
        if inliers < P.min_inliers then
          { valid := false, lcName := lcName, numMatches := numMatches, inliers := inliers,
            trans := trans }
        else
          { valid := true, lcName := lcName, numMatches := numMatches, inliers := inliers,
            trans := trans }
    else
      -- Stereo: solvePnPRansac + inlier count; trans written only on success
      let inliers := E.pnpInliers refImage.desc r.desc
      if inliers < P.min_inliers then
        { valid := false, lcName := lcName, numMatches := numMatches, inliers := inliers,
          trans := trans }
      else
        { valid := true, lcName := lcName, numMatches := numMatches, inliers := inliers,
          trans := Transform.pose (E.pnpPose refImage.desc r.desc) }

/-- Session state of a `haloc::LoopClosure` object: the observation store
backing directory, the `img_` member, `hash_.isInitialized()`, the
`hash_table_` of `(index, hash)` pairs and the running counter `img_idx_`. -/
structure Session where
  store : Store
  img : Image
  hashInit : Bool
  hashTable : List (Int × Int)
  imgIdx : Nat

/-- State after `LoopClosure::init()`: empty store, cleared table, zero
index counter, hash engine uninitialized. -/
def initSession : Session :=
  { store := fun _ => none, img := { desc := 0 }, hashInit := false,
    hashTable := [], imgIdx := 0 }

/-- `LoopClosure::setNode` (`lc.cpp:99-133`, both overloads): set `img_`,
write the record file `<img_idx_>.yml`, increment `img_idx_`. -/
def setNode (s : Session) (o : Obs) : Session :=
  { s with
    img := { desc := o.desc },
    store := fun j =>
      if j = (s.imgIdx : Int) then some { name := o.name, desc := o.desc, threed := o.threed }
      else s.store j,
    imgIdx := s.imgIdx + 1 }

/-- Modelled from the spec: the comparator `haloc::Utils::sortByMatching`
lives in `libhaloc/utils.h`, which is not among the sources here; per the
spec the ranking is "sorted ascending by dissimilarity score (best first;
ties broken by lower/earlier index — stable sort)", i.e. candidates are
ordered by score and, among equal scores, by earlier observation index. -/
def sortByMatching (a b : Int × Int) : Prop :=
  a.2 < b.2 ∨ (a.2 = b.2 ∧ a.1 ≤ b.1)

instance : DecidableRel sortByMatching := fun a b => by
  unfold sortByMatching; infer_instance

instance : IsTotal (Int × Int) sortByMatching where
  total a b := by
    unfold sortByMatching
    omega

instance : IsTrans (Int × Int) sortByMatching where
  trans a b c := by
    unfold sortByMatching
    omega

/-- `sort(matchings.begin(), matchings.end(), haloc::Utils::sortByMatching)`
(`lc.cpp:178`). -/
def sortMatchings (l : List (Int × Int)) : List (Int × Int) :=
  List.insertionSort sortByMatching l

/-- The hash table after `hash_table_.push_back(make_pair(img_idx_-1,
hash_val))` (`lc.cpp:160-161`). -/
def appendedTable (E : Env) (s : Session) : List (Int × Int) :=
  s.hashTable ++ [((s.imgIdx : Int) - 1, E.getHash s.img.desc)]

/-- The ranked candidate list of one query (`lc.cpp:167-178`): score the
current hash against every table entry but the last `min_neighbour` ones,
then sort. -/
def rankedMatchings (P : Params) (E : Env) (s : Session) : List (Int × Int) :=
  let hashVal := E.getHash s.img.desc
  let table := appendedTable E s
  sortMatchings ((table.take (table.length - P.min_neighbour)).map
    (fun e => (e.1, E.hmatch hashVal e.2)))

/-- The temporal cross-check of `getLoopClosure` (`lc.cpp:217-234`): verify
the current observation against the candidate's predecessor (index - 1,
`lc.cpp:218-223`); if that fails, against its successor (index + 1,
`lc.cpp:228-233`).  `tmp_name` starts as the empty string and is threaded
from the first `compute` call into the second; all cross-check outputs land
in locals that are discarded afterwards. -/
def crossCheck (P : Params) (E : Env) (store : Store) (img : Image)
    (cand : Int) : ComputeOut :=
  let v1 := compute P E store img (cand - 1) "" Transform.identity
  if v1.valid then v1
  else compute P E store img (cand + 1) v1.lcName v1.trans

/-- The candidate `while` loop of `getLoopClosure` (`lc.cpp:188-244`).
`lcName` and `trans` thread the reference parameters `lc_name` and `trans`
through the iterations (a failed `compute` can still overwrite `lc_name`,
and a stereo candidate that passes primary verification but fails the
temporal validation leaves its pose in `trans`).  `fuel` is the remaining
candidate budget `n_candidates - best_m`; the returned quadruple is
(`valid`, `lc_name`, `trans`, final `best_m`). -/
def candidateLoop (P : Params) (E : Env) (store : Store) (img : Image)
    (matchings : List (Int × Int)) :
    String → Transform → Nat → Nat → Bool × String × Transform × Nat
  | nm, tr, 0, bestM =>
    -- while condition best_m < n_candidates fails
    (false, nm, tr, bestM)
  | nm, tr, fuel + 1, bestM =>
    if matchings.length ≤ bestM then
      -- Sanity check: best_m = 0; break;
      (false, nm, tr, 0)
    else
      let cand := (matchings.getD bestM (0, 0)).1
      let r := compute P E store img cand nm tr
      if r.valid && !P.validate then
        -- valid loop closure, second-step validation disabled
        (true, r.lcName, r.trans, bestM)
      else if r.valid && P.validate then
        -- validate against the previous image, then the next one
        if (crossCheck P E store img cand).valid then (true, r.lcName, r.trans, bestM)
        else candidateLoop P E store img matchings r.lcName r.trans fuel (bestM + 1)
      else
        candidateLoop P E store img matchings r.lcName r.trans fuel (bestM + 1)

/-- Result of one call to the three-argument `getLoopClosure`: the boolean
return value and the final values of the reference parameters
`lc_img_idx`, `lc_name` and `trans`. -/
structure LCResult where
  ret : Bool
  lcIdx : Int
  lcName : String
  trans : Transform
deriving DecidableEq, Repr

/-- `LoopClosure::getLoopClosure` (`lc.cpp:150-254`).  `lcIdx`, `lcName`
and `trans` enter with the caller's current values (they are reference
parameters and the early returns at `lc.cpp:156` and `lc.cpp:165` leave
them untouched).  Returns the call result together with the updated
session. -/
def getLoopClosure (P : Params) (E : Env) (s : Session)
    (lcIdx : Int) (lcName : String) (trans : Transform) : LCResult × Session :=
  if s.hashInit = false then
    -- hash_.init(img_.getDesc(), true); return false;
    ({ ret := false, lcIdx := lcIdx, lcName := lcName, trans := trans },
     { s with hashInit := true })
  else
    let table := appendedTable E s
    let s1 : Session := { s with hashTable := table }
    if table.length ≤ P.min_neighbour then
      -- Check if enough neighbours
      ({ ret := false, lcIdx := lcIdx, lcName := lcName, trans := trans }, s1)
    else
      let matchings := rankedMatchings P E s
      -- trans.setIdentity(); lc_img_idx = -1; lc_name = "";
      let out := candidateLoop P E s.store s.img matchings "" Transform.identity
        P.n_candidates 0
      if out.1 = true ∧ out.2.2.2 < matchings.length then
        ({ ret := out.1, lcIdx := (matchings.getD out.2.2.2 (0, 0)).1,
           lcName := out.2.1, trans := out.2.2.1 }, s1)
      else
        ({ ret := out.1, lcIdx := -1, lcName := "", trans := out.2.2.1 }, s1)

/-- One step of the driving protocol of `examples/mono.cpp:105-109`:
`setNode` for the new observation, then `getLoopClosure` with fresh output
variables. -/
def processStep (P : Params) (E : Env) (s : Session) (o : Obs) : LCResult × Session :=
  getLoopClosure P E (setNode s o) 0 "" Transform.identity

/-- Run the per-step protocol over a list of observations from a given
session, returning the final session and the result of the last step. -/
def runFrom (P : Params) (E : Env) : Session → LCResult → List Obs → Session × LCResult
  | s, res, [] => (s, res)
  | s, _, o :: rest =>
    let (r, s1) := processStep P E s o
    runFrom P E s1 r rest

/-- Run a whole observation history from a freshly initialized session. -/
def runHistory (P : Params) (E : Env) (obs : List Obs) : Session × LCResult :=
  runFrom P E initSession
    { ret := false, lcIdx := 0, lcName := "", trans := Transform.identity } obs

/-! ## Concrete instances used by witnesses and counterexamples -/

/-- A small accepting parameter set: `min_neighbour = 1`, `n_candidates = 2`,
`min_matches = 1`, `min_inliers = 1`, validation disabled. -/
def Pw : Params :=
  { min_neighbour := 1, n_candidates := 2, min_matches := 1, min_inliers := 1,
    validate := false }

/-- A concrete collaborator environment: the hash of a descriptor token is
the token itself, the dissimilarity of two hashes is their distance, and
the geometric estimators accept everything with 5 matches / 5 inliers. -/
def Ew : Env :=
  { getHash := fun d => d, hmatch := fun a b => (a - b).natAbs,
    descMatches := fun _ _ => 5, fundOk := fun _ _ => true,
    monoInliers := fun _ _ => 5, pnpInliers := fun _ _ => 5,
    pnpPose := fun _ _ => 0 }

/-- Three concrete mono observations; the third is similar to the second. -/
def obs0 : Obs := { name := "a", desc := 10, threed := [] }

def obs1 : Obs := { name := "b", desc := 20, threed := [] }

def obs2 : Obs := { name := "c", desc := 11, threed := [] }

/-! ## Claim theorems -/

/-- C4: the first-ever ingested observation always yields "no closure"
regardless of parameters: with the hash engine uninitialized,
`getLoopClosure` initializes it from this observation and returns `false`,
appending no entry to the hash table. -/
theorem firstObservationBootstraps (P : Params) (E : Env) (o : Obs) :
    (runHistory P E [o]).2.ret = false ∧
    (runHistory P E [o]).1.hashTable = [] ∧
    (runHistory P E [o]).1.hashInit = true := by
  simp [runHistory, runFrom, processStep, getLoopClosure, setNode, initSession]

/-- C5: when, after appending the current observation entry, the hash table
has at most `min_neighbour` entries, `getLoopClosure` returns `false`
without ranking or verifying any candidate: the call is exactly the early
return at `lc.cpp:165`, which leaves every output parameter untouched and
only appends the new table entry. -/
theorem tooFewNeighboursNoClosure (P : Params) (E : Env) (s : Session)
    (i0 : Int) (n0 : String) (t0 : Transform)
    (h1 : s.hashInit = true)
    (h2 : (appendedTable E s).length ≤ P.min_neighbour) :
    getLoopClosure P E s i0 n0 t0 =
      ({ ret := false, lcIdx := i0, lcName := n0, trans := t0 },
       { s with hashTable := appendedTable E s }) := by
  simp [getLoopClosure, h1, h2]

/-- A session holding one past observation, hash engine initialized. -/
def sessionOne : Session :=
  { store := fun _ => none, img := { desc := 5 }, hashInit := true,
    hashTable := [], imgIdx := 1 }

/-- Witness for C5: `sessionOne` queried with `min_neighbour = 1`. -/
theorem tooFewNeighboursNoClosure_witness :
    sessionOne.hashInit = true ∧
    (appendedTable Ew sessionOne).length ≤ Pw.min_neighbour ∧
    getLoopClosure Pw Ew sessionOne 3 "x" (Transform.pose 9) =
      ({ ret := false, lcIdx := 3, lcName := "x", trans := Transform.pose 9 },
       { sessionOne with hashTable := appendedTable Ew sessionOne }) :=
  ⟨rfl, by decide,
   tooFewNeighboursNoClosure Pw Ew sessionOne 3 "x" (Transform.pose 9) rfl (by decide)⟩

/-- C9: in a mono verification (the stored record has an empty 3-D point
list) `compute` never writes the `trans` reference parameter, whether it
accepts or rejects — so it stays at whatever the caller set before the
candidate loop (the identity); only the stereo branch assigns a pose. -/
theorem monoComputeKeepsTransform (P : Params) (E : Env) (store : Store)
    (img : Image) (idx : Int) (nm : String) (tr : Transform) (r : Record)
    (h1 : store idx = some r) (h2 : r.threed = []) :
    (compute P E store img idx nm tr).trans = tr := by
  simp only [compute, h1, h2]
  split
  · rfl
  · simp only [List.length_nil, reduceIte]
    split
    · rfl
    · split <;> rfl

/-- A store holding a single mono record at index 2. -/
def storeMono2 : Store :=
  fun j => if j = 2 then some { name := "two", desc := 30, threed := [] } else none

/-- Witness for C9: a concrete mono record, accepted by the estimators,
still leaves the incoming transform in place. -/
theorem monoComputeKeepsTransform_witness :
    storeMono2 2 = some { name := "two", desc := 30, threed := [] } ∧
    ({ name := "two", desc := 30, threed := [] } : Record).threed = [] ∧
    (compute Pw Ew storeMono2 { desc := 7 } 2 "n" (Transform.pose 4)).trans =
      Transform.pose 4 :=
  ⟨rfl, rfl,
   monoComputeKeepsTransform Pw Ew storeMono2 { desc := 7 } 2 "n" (Transform.pose 4)
     { name := "two", desc := 30, threed := [] } rfl rfl⟩

/-- C2 (amended): a candidate index whose persisted record file does not
exist makes `compute` return `false` immediately (`lc.cpp:276`), leaving
the outputs untouched: a silent rejection, not a hard error. -/
theorem missingRecordSilentReject (P : Params) (E : Env) (store : Store)
    (img : Image) (idx : Int) (nm : String) (tr : Transform)
    (h : store idx = none) :
    compute P E store img idx nm tr =
      { valid := false, lcName := nm, numMatches := 0, inliers := 0, trans := tr } := by
  simp [compute, h]

/-- Witness for C2 (amended): `compute` on an empty store. -/
theorem missingRecordSilentReject_witness :
    (fun _ => none : Store) 1 = none ∧
    compute Pw Ew (fun _ => none) { desc := 7 } 1 "keep" (Transform.pose 2) =
      { valid := false, lcName := "keep", numMatches := 0, inliers := 0,
        trans := Transform.pose 2 } :=
  ⟨rfl, missingRecordSilentReject Pw Ew _ { desc := 7 } 1 "keep" (Transform.pose 2) rfl⟩

/-- C6: the ranked candidate list is sorted ascending by dissimilarity
score, ties between equal scores broken by the lower/earlier observation
index (`sortByMatching` is exactly that order), and it is a permutation of
the scored eligible prefix of the hash table (all table entries except the
last `min_neighbour` ones). -/
theorem rankingSortedTieBreak (P : Params) (E : Env) (s : Session) :
    List.Sorted sortByMatching (rankedMatchings P E s) ∧
    (rankedMatchings P E s).Perm
      (((appendedTable E s).take ((appendedTable E s).length - P.min_neighbour)).map
        (fun e => (e.1, E.hmatch (E.getHash s.img.desc) e.2))) := by
  unfold rankedMatchings sortMatchings
  constructor
  · exact List.sorted_insertionSort sortByMatching _
  · exact List.perm_insertionSort sortByMatching _

/-- A session whose ranked candidates are the indices 1 (score 93) and
2 (score 193); the store behind it is `storeMono2`, which has a record for
index 2 but none for index 1. -/
def sessionMissingRecord : Session :=
  { store := storeMono2, img := { desc := 7 }, hashInit := true,
    hashTable := [(1, 100), (2, 200)], imgIdx := 4 }

/-- Counterexample for C2: the best-ranked candidate (index 1) has no
persisted record, yet the query neither aborts nor fails: `compute`
silently rejects it and the candidate loop advances and accepts the
next-ranked candidate (index 2).  A missing record is a silent rejection,
not a hard error. -/
theorem missingRecordNotAnError_counterexample :
    sessionMissingRecord.store 1 = none ∧
    (getLoopClosure Pw Ew sessionMissingRecord 0 "" Transform.identity).1 =
      { ret := true, lcIdx := 2, lcName := "two", trans := Transform.identity } :=
  ⟨rfl, by decide⟩

/-- Counterexample for C8: the bootstrap early return of `getLoopClosure`
(`lc.cpp:156`) leaves the caller-supplied output variables untouched: a
`false` return whose matched index is 7, whose name is "seven" and whose
transform is a pose, not (-1, "", identity) as the claim states. -/
theorem earlyReturnKeepsOutputs_counterexample :
    (getLoopClosure Pw Ew initSession 7 "seven" (Transform.pose 5)).1 =
      { ret := false, lcIdx := 7, lcName := "seven", trans := Transform.pose 5 } := by
  decide

/-- C8 (amended): once a query reaches the candidate-search phase (hash
engine initialized and strictly more than `min_neighbour` table entries
after the append), a `false` return does carry matched index -1 and an
empty matched name; the two early returns instead leave the caller's
output variables unchanged, and the returned transform is whatever the
candidate loop left in `trans`. -/
theorem noClosureAfterRankingDefaults (P : Params) (E : Env) (s : Session)
    (i0 : Int) (n0 : String) (t0 : Transform)
    (h1 : s.hashInit = true)
    (h2 : P.min_neighbour < (appendedTable E s).length)
    (h3 : (getLoopClosure P E s i0 n0 t0).1.ret = false) :
    (getLoopClosure P E s i0 n0 t0).1.lcIdx = -1 ∧
    (getLoopClosure P E s i0 n0 t0).1.lcName = "" := by
  simp only [getLoopClosure, h1, Bool.true_eq_false, if_false,
    if_neg (Nat.not_le_of_lt h2)] at h3 ⊢
  split at h3
  next hc =>
    dsimp only at h3
    rw [hc.1] at h3
    cases h3
  next hc =>
    rw [if_neg hc]
    exact ⟨rfl, rfl⟩

/-- A session like `sessionMissingRecord` but with an empty store, so every
candidate is rejected. -/
def sessionNoRecords : Session :=
  { store := fun _ => none, img := { desc := 7 }, hashInit := true,
    hashTable := [(1, 100), (2, 200)], imgIdx := 4 }

/-- Witness for C8 (amended): a query that reaches the candidate phase and
finds no closure reports (-1, ""). -/
theorem noClosureAfterRankingDefaults_witness :
    sessionNoRecords.hashInit = true ∧
    Pw.min_neighbour < (appendedTable Ew sessionNoRecords).length ∧
    (getLoopClosure Pw Ew sessionNoRecords 9 "y" (Transform.pose 3)).1.ret = false ∧
    ((getLoopClosure Pw Ew sessionNoRecords 9 "y" (Transform.pose 3)).1.lcIdx = -1 ∧
     (getLoopClosure Pw Ew sessionNoRecords 9 "y" (Transform.pose 3)).1.lcName = "") :=
  ⟨rfl, by decide, by decide,
   noClosureAfterRankingDefaults Pw Ew sessionNoRecords 9 "y" (Transform.pose 3)
     rfl (by decide) (by decide)⟩

/-- Parameters like `Pw` but with second-step validation enabled. -/
def Pv : Params :=
  { min_neighbour := 1, n_candidates := 2, min_matches := 1, min_inliers := 1,
    validate := true }

/-- C3: with validation enabled, a candidate that passes primary
verification while both its predecessor and successor cross-checks fail is
not accepted: the loop marks it invalid and moves on to the next ranked
candidate, threading through the `lc_name` and `trans` values the primary
verification wrote, and performs no further cross-checks for the failed
candidate (by definition `crossCheck` only ever tries index-1 and then
index+1). -/
theorem failedValidationAdvances (P : Params) (E : Env) (store : Store)
    (img : Image) (matchings : List (Int × Int)) (nm : String) (tr : Transform)
    (fuel bestM : Nat)
    (hb : bestM < matchings.length)
    (hv : P.validate = true)
    (h1 : (compute P E store img (matchings.getD bestM (0, 0)).1 nm tr).valid = true)
    (h2 : (compute P E store img ((matchings.getD bestM (0, 0)).1 - 1) ""
            Transform.identity).valid = false)
    (h3 : (compute P E store img ((matchings.getD bestM (0, 0)).1 + 1)
            (compute P E store img ((matchings.getD bestM (0, 0)).1 - 1) ""
              Transform.identity).lcName
            (compute P E store img ((matchings.getD bestM (0, 0)).1 - 1) ""
              Transform.identity).trans).valid = false) :
    candidateLoop P E store img matchings nm tr (fuel + 1) bestM =
      candidateLoop P E store img matchings
        (compute P E store img (matchings.getD bestM (0, 0)).1 nm tr).lcName
        (compute P E store img (matchings.getD bestM (0, 0)).1 nm tr).trans
        fuel (bestM + 1) := by
  have hcc : (crossCheck P E store img (matchings.getD bestM (0, 0)).1).valid = false := by
    simp only [crossCheck, h2, Bool.false_eq_true, if_false]
    exact h3
  simp only [candidateLoop, if_neg (Nat.not_le_of_lt hb), h1, hv, hcc,
    Bool.true_and, Bool.and_true, Bool.not_true, Bool.and_false,
    Bool.false_eq_true, if_false, if_true, Bool.and_self]

/-- A store for the validation scenarios: passing mono records at indices
5 and 8, nothing anywhere else (in particular neither at 4 nor at 6, so
both cross-checks of candidate 5 fail). -/
def storeVal : Store :=
  fun j =>
    if j = 5 then some { name := "five", desc := 50, threed := [] }
    else if j = 8 then some { name := "eight", desc := 80, threed := [] }
    else none

/-- Witness for C3: candidate 5 passes primary verification, records 4 and
6 are absent, so the loop advances to the next ranked candidate. -/
theorem failedValidationAdvances_witness :
    0 < ([((5 : Int), (10 : Int)), (8, 20)] : List (Int × Int)).length ∧
    Pv.validate = true ∧
    (compute Pv Ew storeVal { desc := 7 }
      (([((5 : Int), (10 : Int)), (8, 20)].getD 0 (0, 0)).1) "" Transform.identity).valid
      = true ∧
    candidateLoop Pv Ew storeVal { desc := 7 } [(5, 10), (8, 20)] "" Transform.identity
        (1 + 1) 0 =
      candidateLoop Pv Ew storeVal { desc := 7 } [(5, 10), (8, 20)]
        (compute Pv Ew storeVal { desc := 7 }
          (([((5 : Int), (10 : Int)), (8, 20)].getD 0 (0, 0)).1) "" Transform.identity).lcName
        (compute Pv Ew storeVal { desc := 7 }
          (([((5 : Int), (10 : Int)), (8, 20)].getD 0 (0, 0)).1) "" Transform.identity).trans
        1 (0 + 1) :=
  ⟨by decide, rfl, by decide,
   failedValidationAdvances Pv Ew storeVal { desc := 7 } [(5, 10), (8, 20)] ""
     Transform.identity 1 0 (by decide) rfl (by decide) (by decide) (by decide)⟩

/-- C10: when a candidate is accepted through the temporal cross-check, the
returned flag, name and transform are exactly those the primary
verification of the candidate itself produced; the cross-check `compute`
calls write into the discarded locals of `crossCheck` and do not reach the
result. -/
theorem validatedAcceptKeepsPrimary (P : Params) (E : Env) (store : Store)
    (img : Image) (matchings : List (Int × Int)) (nm : String) (tr : Transform)
    (fuel bestM : Nat)
    (hb : bestM < matchings.length)
    (hv : P.validate = true)
    (h1 : (compute P E store img (matchings.getD bestM (0, 0)).1 nm tr).valid = true)
    (hcc : (crossCheck P E store img (matchings.getD bestM (0, 0)).1).valid = true) :
    candidateLoop P E store img matchings nm tr (fuel + 1) bestM =
      (true,
       (compute P E store img (matchings.getD bestM (0, 0)).1 nm tr).lcName,
       (compute P E store img (matchings.getD bestM (0, 0)).1 nm tr).trans,
       bestM) := by
  simp only [candidateLoop, if_neg (Nat.not_le_of_lt hb), h1, hv, hcc,
    Bool.true_and, Bool.and_true, Bool.not_true, Bool.and_false,
    Bool.false_eq_true, if_false, if_true, Bool.and_self]

/-- A store with passing mono records at indices 4 and 5: candidate 5
passes primary verification and its predecessor cross-check succeeds. -/
def storeValPred : Store :=
  fun j =>
    if j = 5 then some { name := "five", desc := 50, threed := [] }
    else if j = 4 then some { name := "four", desc := 40, threed := [] }
    else none

/-- Witness for C10: candidate 5 validated through its predecessor; the
result carries the primary verification's name. -/
theorem validatedAcceptKeepsPrimary_witness :
    0 < ([((5 : Int), (10 : Int))] : List (Int × Int)).length ∧
    Pv.validate = true ∧
    (crossCheck Pv Ew storeValPred { desc := 7 }
      (([((5 : Int), (10 : Int))].getD 0 (0, 0)).1)).valid = true ∧
    candidateLoop Pv Ew storeValPred { desc := 7 } [(5, 10)] "" Transform.identity
        (0 + 1) 0 =
      (true,
       (compute Pv Ew storeValPred { desc := 7 }
         (([((5 : Int), (10 : Int))].getD 0 (0, 0)).1) "" Transform.identity).lcName,
       (compute Pv Ew storeValPred { desc := 7 }
         (([((5 : Int), (10 : Int))].getD 0 (0, 0)).1) "" Transform.identity).trans,
       0) :=
  ⟨by decide, rfl, by decide,
   validatedAcceptKeepsPrimary Pv Ew storeValPred { desc := 7 } [(5, 10)] ""
     Transform.identity 0 0 (by decide) rfl (by decide) (by decide)⟩

/-- A store holding only a passing mono record at index 0. -/
def storeZero : Store :=
  fun j => if j = 0 then some { name := "zero", desc := 50, threed := [] } else none

/-- A crafted session whose only ranked candidate has index 0 (its hash
table holds an entry for observation 0). -/
def sessionZero : Session :=
  { store := storeZero, img := { desc := 7 }, hashInit := true,
    hashTable := [(0, 100)], imgIdx := 2 }

/-- Counterexample for C7: `getLoopClosure` computes the predecessor
cross-check index as candidate-1 with no clamping.  For a candidate of
index 0 the predecessor file index is -1: its record does not exist, so
the cross-check is treated as failing (`compute` returns false), the
successor cross-check (index 1) also fails, and the candidate is rejected
altogether — even though a cross-check against observation 0 itself (what
clamping at 0 would perform) succeeds. -/
theorem noPredecessorClamp_counterexample :
    (compute Pv Ew storeZero { desc := 7 } (0 - 1) "" Transform.identity).valid = false ∧
    (compute Pv Ew storeZero { desc := 7 } 0 "" Transform.identity).valid = true ∧
    (crossCheck Pv Ew storeZero { desc := 7 } 0).valid = false ∧
    (getLoopClosure Pv Ew sessionZero 0 "" Transform.identity).1 =
      { ret := false, lcIdx := -1, lcName := "", trans := Transform.identity } := by
  refine ⟨by decide, by decide, by decide, by decide⟩

/-! ## Reachability: indices of the hash table along any history -/

/-- The list of `n` consecutive integers starting at `a`. -/
def intRange (a : Int) : Nat → List Int
  | 0 => []
  | n + 1 => a :: intRange (a + 1) n

theorem intRange_length (a : Int) (n : Nat) : (intRange a n).length = n := by
  induction n generalizing a with
  | zero => rfl
  | succ n ih => simp [intRange, ih]

theorem mem_intRange {c a : Int} {n : Nat} :
    c ∈ intRange a n ↔ a ≤ c ∧ c < a + n := by
  induction n generalizing a with
  | zero =>
    simp only [intRange, List.not_mem_nil, false_iff]
    omega
  | succ n ih =>
    simp only [intRange, List.mem_cons, ih]
    omega

theorem intRange_append (a : Int) (n : Nat) :
    intRange a n ++ [a + n] = intRange a (n + 1) := by
  induction n generalizing a with
  | zero => simp [intRange]
  | succ n ih =>
    have h := ih (a + 1)
    simp only [intRange, List.cons_append]
    rw [show a + (n + 1 : Nat) = (a + 1) + (n : Nat) by push_cast; ring]
    rw [h]
    simp [intRange]

theorem intRange_take (a : Int) (n k : Nat) :
    (intRange a n).take k = intRange a (min k n) := by
  induction n generalizing a k with
  | zero => simp [intRange]
  | succ n ih =>
    cases k with
    | zero => simp [intRange]
    | succ k => simp [intRange, ih, Nat.succ_min_succ]

/-- The session returned by `getLoopClosure`: the bootstrap branch only
initializes the hash engine, every other branch only appends the new
`(index, hash)` entry to the hash table. -/
theorem getLoopClosure_snd (P : Params) (E : Env) (s : Session)
    (i0 : Int) (n0 : String) (t0 : Transform) :
    (getLoopClosure P E s i0 n0 t0).2 =
      if s.hashInit = false then { s with hashInit := true }
      else { s with hashTable := appendedTable E s } := by
  by_cases hb : s.hashInit = false
  · simp [getLoopClosure, hb]
  · have hb1 : s.hashInit = true := by
      cases h : s.hashInit
      · exact absurd h hb
      · rfl
    simp only [getLoopClosure, hb1, Bool.true_eq_false, if_false]
    split
    · rfl
    · split <;> rfl

/-- Invariant of every reachable session: before the hash engine is
initialized nothing has been ingested past the bootstrap observation, and
afterwards the hash-table indices are exactly `1, 2, ..., img_idx_ - 1`
(observation 0 never receives a table entry). -/
def Inv (s : Session) : Prop :=
  (s.hashInit = true → s.hashTable.map Prod.fst = intRange 1 (s.imgIdx - 1) ∧ 1 ≤ s.imgIdx)
  ∧ (s.hashInit = false → s.hashTable = [] ∧ s.imgIdx = 0)

theorem inv_initSession : Inv initSession := by
  constructor
  · intro h; cases h
  · intro _; exact ⟨rfl, rfl⟩

theorem inv_processStep (P : Params) (E : Env) (s : Session) (o : Obs)
    (h : Inv s) : Inv (processStep P E s o).2 := by
  have hsnd := getLoopClosure_snd P E (setNode s o) 0 "" Transform.identity
  by_cases hb : s.hashInit = false
  · obtain ⟨htab, hidx⟩ := h.2 hb
    have hb1 : (setNode s o).hashInit = false := hb
    rw [processStep, hsnd, if_pos hb1]
    constructor
    · intro _
      simp [setNode, htab, hidx, intRange]
    · intro hcontra
      simp at hcontra
  · have hbt : s.hashInit = true := by
      cases hht : s.hashInit
      · exact absurd hht hb
      · rfl
    obtain ⟨htab, hidx⟩ := h.1 hbt
    have hb1 : ¬ (setNode s o).hashInit = false := hb
    rw [processStep, hsnd, if_neg hb1]
    constructor
    · intro _
      constructor
      · show ((setNode s o).hashTable ++
            [(((setNode s o).imgIdx : Int) - 1, E.getHash (setNode s o).img.desc)]).map
            Prod.fst = intRange 1 ((setNode s o).imgIdx - 1)
        have h1 : (setNode s o).hashTable = s.hashTable := rfl
        have h2 : (setNode s o).imgIdx = s.imgIdx + 1 := rfl
        rw [h1, h2, List.map_append, htab]
        simp only [List.map_cons, List.map_nil]
        have h3 : ((s.imgIdx + 1 : Nat) : Int) - 1 = 1 + ((s.imgIdx - 1 : Nat) : Int) := by
          omega
        rw [h3, intRange_append]
        congr 1
        omega
      · show 1 ≤ (setNode s o).imgIdx
        have h2 : (setNode s o).imgIdx = s.imgIdx + 1 := rfl
        omega
    · intro hcontra
      exact absurd hcontra hb1

theorem inv_runFrom (P : Params) (E : Env) (s : Session) (r : LCResult)
    (l : List Obs) (h : Inv s) : Inv (runFrom P E s r l).1 := by
  induction l generalizing s r with
  | nil => exact h
  | cons o rest ih =>
    simp only [runFrom]
    exact ih _ _ (inv_processStep P E s o h)

theorem processStep_imgIdx (P : Params) (E : Env) (s : Session) (o : Obs) :
    (processStep P E s o).2.imgIdx = s.imgIdx + 1 := by
  rw [processStep, getLoopClosure_snd]
  split <;> rfl

theorem runFrom_imgIdx (P : Params) (E : Env) (s : Session) (r : LCResult)
    (l : List Obs) : (runFrom P E s r l).1.imgIdx = s.imgIdx + l.length := by
  induction l generalizing s r with
  | nil => simp [runFrom]
  | cons o rest ih =>
    simp only [runFrom, List.length_cons]
    rw [ih, processStep_imgIdx]
    omega

theorem runFrom_append (P : Params) (E : Env) (s : Session) (r : LCResult)
    (l : List Obs) (o : Obs) :
    runFrom P E s r (l ++ [o]) =
      ((processStep P E (runFrom P E s r l).1 o).2,
       (processStep P E (runFrom P E s r l).1 o).1) := by
  induction l generalizing s r with
  | nil => simp [runFrom]
  | cons p rest ih =>
    simp only [List.cons_append, runFrom]
    exact ih _ _

/-- If the candidate loop reports a valid loop closure, the `best_m` it
returns is a position inside the ranked candidate list (the loop only
accepts after the sanity check `best_m < matchings.size()`). -/
theorem candidateLoop_valid_lt (P : Params) (E : Env) (store : Store) (img : Image)
    (matchings : List (Int × Int)) (nm : String) (tr : Transform) (fuel bestM : Nat)
    (h : (candidateLoop P E store img matchings nm tr fuel bestM).1 = true) :
    (candidateLoop P E store img matchings nm tr fuel bestM).2.2.2 < matchings.length := by
  induction fuel generalizing nm tr bestM with
  | zero => simp [candidateLoop] at h
  | succ fuel ih =>
    by_cases hlen : matchings.length ≤ bestM
    · rw [candidateLoop, if_pos hlen] at h
      cases h
    · rw [candidateLoop, if_neg hlen] at h ⊢
      by_cases hA : ((compute P E store img (matchings.getD bestM (0, 0)).1 nm tr).valid
          && !P.validate) = true
      · simp only [hA, if_true] at h ⊢
        exact Nat.lt_of_not_le hlen
      · simp only [hA, Bool.false_eq_true, if_false] at h ⊢
        by_cases hB : ((compute P E store img (matchings.getD bestM (0, 0)).1 nm tr).valid
            && P.validate) = true
        · simp only [hB, if_true] at h ⊢
          by_cases hC : (crossCheck P E store img (matchings.getD bestM (0, 0)).1).valid = true
          · simp only [hC, if_true] at h ⊢
            exact Nat.lt_of_not_le hlen
          · simp only [hC, Bool.false_eq_true, if_false] at h ⊢
            exact ih _ _ _ h
        · simp only [hB, Bool.false_eq_true, if_false] at h ⊢
          exact ih _ _ _ h

/-- Every ranked candidate of a reachable query state has its observation
index in `1, ..., (img_idx_ - 1) - min_neighbour`: only entries older than
the last `min_neighbour` table entries are scored. -/
theorem rankedMatchings_fst_mem (P : Params) (E : Env) (s : Session)
    (htab : s.hashTable.map Prod.fst = intRange 1 (s.imgIdx - 2))
    (hn : 2 ≤ s.imgIdx) :
    ∀ c ∈ rankedMatchings P E s,
      c.1 ∈ intRange 1 ((s.imgIdx - 1) - P.min_neighbour) := by
  have happ : (appendedTable E s).map Prod.fst = intRange 1 (s.imgIdx - 1) := by
    unfold appendedTable
    rw [List.map_append, htab]
    simp only [List.map_cons, List.map_nil]
    have h3 : ((s.imgIdx : Int)) - 1 = 1 + ((s.imgIdx - 2 : Nat) : Int) := by omega
    rw [h3, intRange_append]
    congr 1
    omega
  have hlen : (appendedTable E s).length = s.imgIdx - 1 := by
    have hl := congrArg List.length happ
    rw [List.length_map, intRange_length] at hl
    exact hl
  intro c hc
  have hc0 : c ∈ ((appendedTable E s).take
      ((appendedTable E s).length - P.min_neighbour)).map
      (fun e => (e.1, E.hmatch (E.getHash s.img.desc) e.2)) := by
    unfold rankedMatchings sortMatchings at hc
    exact (List.mem_insertionSort sortByMatching).mp hc
  obtain ⟨e, he, hec⟩ := List.mem_map.mp hc0
  have he1 : e.1 ∈ ((appendedTable E s).take
      ((appendedTable E s).length - P.min_neighbour)).map Prod.fst :=
    List.mem_map_of_mem Prod.fst he
  rw [List.map_take, happ, intRange_take, hlen] at he1
  have hmin : min ((s.imgIdx - 1) - P.min_neighbour) (s.imgIdx - 1) =
      (s.imgIdx - 1) - P.min_neighbour := by omega
  rw [hmin] at he1
  have hfst : c.1 = e.1 := by rw [hec.symm]
  rw [hfst]
  exact he1

/-- If `getLoopClosure`, called on a state whose hash-table indices are the
consecutive integers `1, ..., img_idx_ - 2` (the shape `setNode` leaves
after any history), reports a loop closure, the matched index lies between
1 and `(img_idx_ - 1) - min_neighbour`. -/
theorem getLoopClosure_ret_bounds (P : Params) (E : Env) (s : Session)
    (i0 : Int) (n0 : String) (t0 : Transform)
    (htab : s.hashTable.map Prod.fst = intRange 1 (s.imgIdx - 2))
    (hn : 2 ≤ s.imgIdx)
    (hret : (getLoopClosure P E s i0 n0 t0).1.ret = true) :
    1 ≤ (getLoopClosure P E s i0 n0 t0).1.lcIdx ∧
    (getLoopClosure P E s i0 n0 t0).1.lcIdx + (P.min_neighbour : Int) ≤
      (s.imgIdx : Int) - 1 := by
  by_cases hb : s.hashInit = false
  · simp only [getLoopClosure, hb, if_true, if_pos] at hret
    cases hret
  · have hb1 : s.hashInit = true := by
      cases hh : s.hashInit
      · exact absurd hh hb
      · rfl
    by_cases hle : (appendedTable E s).length ≤ P.min_neighbour
    · simp only [getLoopClosure, hb1, Bool.true_eq_false, if_false, if_pos hle] at hret
      cases hret
    · simp only [getLoopClosure, hb1, Bool.true_eq_false, if_false,
        if_neg hle] at hret ⊢
      have hlen : (appendedTable E s).length = s.imgIdx - 1 := by
        have happ : (appendedTable E s).map Prod.fst = intRange 1 (s.imgIdx - 1) := by
          unfold appendedTable
          rw [List.map_append, htab]
          simp only [List.map_cons, List.map_nil]
          have h3 : ((s.imgIdx : Int)) - 1 = 1 + ((s.imgIdx - 2 : Nat) : Int) := by omega
          rw [h3, intRange_append]
          congr 1
          omega
        have hl := congrArg List.length happ
        rw [List.length_map, intRange_length] at hl
        exact hl
      by_cases hcond : ((candidateLoop P E s.store s.img (rankedMatchings P E s) ""
            Transform.identity P.n_candidates 0).1 = true ∧
          (candidateLoop P E s.store s.img (rankedMatchings P E s) ""
            Transform.identity P.n_candidates 0).2.2.2 < (rankedMatchings P E s).length)
      · rw [if_pos hcond] at hret ⊢
        dsimp only at hret ⊢
        have hgetD : (rankedMatchings P E s).getD
            (candidateLoop P E s.store s.img (rankedMatchings P E s) ""
              Transform.identity P.n_candidates 0).2.2.2 (0, 0) ∈
            rankedMatchings P E s := by
          rw [List.getD_eq_getElem _ _ hcond.2]
          exact List.getElem_mem hcond.2
        have hmem := rankedMatchings_fst_mem P E s htab hn _ hgetD
        rw [mem_intRange] at hmem
        have hlt : P.min_neighbour < s.imgIdx - 1 := by
          rw [hlen] at hle
          omega
        omega
      · rw [if_neg hcond] at hret
        dsimp only at hret
        have hlt := candidateLoop_valid_lt P E s.store s.img (rankedMatchings P E s)
          "" Transform.identity P.n_candidates 0 hret
        exact absurd ⟨hret, hlt⟩ hcond

/-- C1: along every observation history driven through the per-step
protocol, a reported loop closure's matched index is at least
`min_neighbour` steps older than the current observation's index
(`obs.length` is the index of the final observation `o`): the loop only
scores hash-table entries older than the last `min_neighbour` entries, and
the returned `lc_img_idx` always comes from that eligible set (in
particular it is at least 1). -/
theorem temporalGapInvariant (P : Params) (E : Env) (obs : List Obs) (o : Obs)
    (hret : (runHistory P E (obs ++ [o])).2.ret = true) :
    1 ≤ (runHistory P E (obs ++ [o])).2.lcIdx ∧
    (runHistory P E (obs ++ [o])).2.lcIdx + (P.min_neighbour : Int) ≤
      (obs.length : Int) := by
  have hsplit : (runHistory P E (obs ++ [o])).2 =
      (processStep P E (runHistory P E obs).1 o).1 := by
    unfold runHistory
    rw [runFrom_append]
  have hinv : Inv (runHistory P E obs).1 :=
    inv_runFrom P E initSession _ obs inv_initSession
  have hidx : (runHistory P E obs).1.imgIdx = obs.length := by
    unfold runHistory
    rw [runFrom_imgIdx]
    simp [initSession]
  rw [hsplit] at hret ⊢
  by_cases hb : (runHistory P E obs).1.hashInit = false
  · have hfalse : (processStep P E (runHistory P E obs).1 o).1.ret = false := by
      unfold processStep getLoopClosure
      rw [if_pos (show (setNode (runHistory P E obs).1 o).hashInit = false from hb)]
    simp [hfalse] at hret
  · have hb1 : (runHistory P E obs).1.hashInit = true := by
      cases hh : (runHistory P E obs).1.hashInit
      · exact absurd hh hb
      · rfl
    obtain ⟨htab, hge⟩ := hinv.1 hb1
    have htab1 : (setNode (runHistory P E obs).1 o).hashTable.map Prod.fst =
        intRange 1 ((setNode (runHistory P E obs).1 o).imgIdx - 2) := by
      show (runHistory P E obs).1.hashTable.map Prod.fst =
        intRange 1 ((runHistory P E obs).1.imgIdx + 1 - 2)
      rw [htab]
      congr 1
    have hn1 : 2 ≤ (setNode (runHistory P E obs).1 o).imgIdx := by
      show 2 ≤ (runHistory P E obs).1.imgIdx + 1
      omega
    have hbounds := getLoopClosure_ret_bounds P E (setNode (runHistory P E obs).1 o)
      0 "" Transform.identity htab1 hn1 hret
    have hidx1 : (setNode (runHistory P E obs).1 o).imgIdx = obs.length + 1 := by
      show (runHistory P E obs).1.imgIdx + 1 = obs.length + 1
      omega
    rw [hidx1] at hbounds
    unfold processStep
    constructor
    · exact hbounds.1
    · have h2 := hbounds.2
      omega

/-- Witness for C1: the history `obs0, obs1, obs2` with `min_neighbour = 1`
reports a closure against index 1, one step older than the current index 2. -/
theorem temporalGapInvariant_witness :
    (runHistory Pw Ew ([obs0, obs1] ++ [obs2])).2.ret = true ∧
    (1 ≤ (runHistory Pw Ew ([obs0, obs1] ++ [obs2])).2.lcIdx ∧
     (runHistory Pw Ew ([obs0, obs1] ++ [obs2])).2.lcIdx + (Pw.min_neighbour : Int) ≤
       (([obs0, obs1] : List Obs).length : Int)) :=
  ⟨by decide, temporalGapInvariant Pw Ew [obs0, obs1] obs2 (by decide)⟩

/-- C7 (amended): along every nonempty history, every ranked candidate
index is at least 1 (observation 0 never enters the hash table), so the
predecessor cross-check index `candidate - 1` is never negative and
clamping it at 0 would change nothing (`max (c - 1) 0 = c - 1`); the code
itself performs no clamping (see the counterexample for the original
claim). -/
theorem predecessorIndexNeverNegative (P : Params) (E : Env) (obs : List Obs)
    (o : Obs) (h : obs ≠ []) :
    ∀ c ∈ rankedMatchings P E (setNode (runHistory P E obs).1 o),
      1 ≤ c.1 ∧ max (c.1 - 1) 0 = c.1 - 1 := by
  intro c hc
  have hinv : Inv (runHistory P E obs).1 :=
    inv_runFrom P E initSession _ obs inv_initSession
  have hidx : (runHistory P E obs).1.imgIdx = obs.length := by
    unfold runHistory
    rw [runFrom_imgIdx]
    simp [initSession]
  have hb1 : (runHistory P E obs).1.hashInit = true := by
    cases hh : (runHistory P E obs).1.hashInit
    · obtain ⟨-, hzero⟩ := hinv.2 hh
      rw [hidx] at hzero
      exact absurd (List.length_eq_zero.mp hzero) h
    · rfl
  obtain ⟨htab, hge⟩ := hinv.1 hb1
  have htab1 : (setNode (runHistory P E obs).1 o).hashTable.map Prod.fst =
      intRange 1 ((setNode (runHistory P E obs).1 o).imgIdx - 2) := by
    show (runHistory P E obs).1.hashTable.map Prod.fst =
      intRange 1 ((runHistory P E obs).1.imgIdx + 1 - 2)
    rw [htab]
    congr 1
  have hn1 : 2 ≤ (setNode (runHistory P E obs).1 o).imgIdx := by
    show 2 ≤ (runHistory P E obs).1.imgIdx + 1
    omega
  have hmem := rankedMatchings_fst_mem P E (setNode (runHistory P E obs).1 o)
    htab1 hn1 c hc
  rw [mem_intRange] at hmem
  constructor
  · exact hmem.1
  · omega

/-- Witness for C7 (amended): after the history `obs0, obs1`, querying with
`obs2` ranks the single candidate `(1, 9)`, whose index 1 has a
non-negative predecessor index. -/
theorem predecessorIndexNeverNegative_witness :
    ([obs0, obs1] : List Obs) ≠ [] ∧
    (1 ≤ (((1 : Int), (9 : Int))).1 ∧
     max ((((1 : Int), (9 : Int))).1 - 1) 0 = (((1 : Int), (9 : Int))).1 - 1) :=
  ⟨List.cons_ne_nil _ _,
   predecessorIndexNeverNegative Pw Ew [obs0, obs1] obs2 (List.cons_ne_nil _ _)
     (1, 9) (by decide)⟩

end haloc
